import Mathlib

/-!
Verification of the FreeDiscovery categorization core
(`freediscovery/categorization.py`).

The shallow embedding below translates the repository's own code:

* `zip_relevant` / `unzip_relevant`  — the index-remap utilities
  `_zip_relevant` / `_unzip_relevant`;
* `chunk_kneighbors`                 — `_chunk_kneighbors`;
* `NearestNeighborRanker.ranking_score` — the static `_ranking_score`;
* `NearestNeighborRanker.fit` / `.kneighbors` — the dual-index ranker;
* `NearestCentroidRanker.decision_function`;
* `CategorizerWrapper.train`         — the validation prefix of
  `_CategorizerWrapper.train`.

Numeric values are rationals (`ℚ`); sample matrices are lists of rows.
The external nearest-neighbor index (scikit-learn `NearestNeighbors`,
the spec's DistanceSource collaborator) is modelled as a per-row query
function `f : row → (raw distance, local index)` applied row-wise to a
batch (`batchOf`): this is exactly the shape of
`NearestNeighbors.kneighbors` with `n_neighbors=1` after the code takes
column `[:, 0]`.  Exceptions are modelled with `Except String`.
-/

set_option maxHeartbeats 1000000

namespace FreeDiscovery

/-- Embedding of `_zip_relevant`: concatenate the two id lists and build the
parallel 1/0 label vector (`np.hstack` and `np.concatenate(ones, zeros)`). -/
def zip_relevant (relevant_id non_relevant_id : List ℤ) : List ℤ × List ℚ :=
  (relevant_id ++ non_relevant_id,
   relevant_id.map (fun _ => (1 : ℚ)) ++ non_relevant_id.map (fun _ => (0 : ℚ)))

/-- Embedding of `_unzip_relevant`: `mask = y > 0.5`; return
`(idx_id[mask], idx_id[~mask])`.  numpy boolean masking over parallel
arrays is a filter of the zipped pairs. -/
def unzip_relevant (idx_id : List ℤ) (y : List ℚ) : List ℤ × List ℤ :=
  let pairs := idx_id.zip y
  ((pairs.filter (fun t => decide ((1 : ℚ)/2 < t.2))).map Prod.fst,
   (pairs.filter (fun t => !decide ((1 : ℚ)/2 < t.2))).map Prod.fst)

/-- Embedding of `_chunk_kneighbors`: run `func` on consecutive row slices
`X[k*B : min((k+1)*B, n)]` for `k < n//B + (n % B != 0)` and concatenate the
distance and index parts.  (For `n = 0` the Python `np.concatenate([])`
raises; callers reach this function only with at least one row because
`kneighbors` validates its input first, and all theorems below assume
`B ≥ 1` since Python raises `ZeroDivisionError` on `B = 0`.) -/
def chunk_kneighbors (func : List (List ℚ) → List ℚ × List ℕ)
    (X : List (List ℚ)) (batch_size : ℕ) : List ℚ × List ℕ :=
  let n := X.length
  let nb := n / batch_size + (if n % batch_size ≠ 0 then 1 else 0)
  let results := (List.range nb).map (fun k =>
    func ((X.drop (k * batch_size)).take
      (min ((k + 1) * batch_size) n - k * batch_size)))
  ((results.map Prod.fst).flatten, (results.map Prod.snd).flatten)

/-- Model of the external 1-nearest-neighbor batch query
(sklearn `NearestNeighbors.kneighbors` with `n_neighbors = 1`, column 0):
a per-row query `f` applied independently to every row of the batch. -/
def batchOf (f : List ℚ → ℚ × ℕ) (X : List (List ℚ)) : List ℚ × List ℕ :=
  (X.map (fun row => (f row).1), X.map (fun row => (f row).2))

namespace NearestNeighborRanker

/-- Embedding of the static `NearestNeighborRanker._ranking_score` on one
row: `S_p = 1 - d_p`; with a negative distance,
`np.where(S_p > S_n, S_p + 1, -1 - S_n) / 2`; otherwise `(S_p + 1)/2`. -/
def ranking_score (d_p : ℚ) (d_n : Option ℚ) : ℚ :=
  let S_p := 1 - d_p
  match d_n with
  | some v =>
      let S_n := 1 - v
      (if S_p > S_n then S_p + 1 else -1 - S_n) / 2
  | none => (S_p + 1) / 2

/-- `_ranking_score` on whole arrays: numpy broadcasting is pointwise. -/
def ranking_score_vec (d_p : List ℚ) (d_n : Option (List ℚ)) : List ℚ :=
  match d_n with
  | some dn => List.zipWith (fun a b => ranking_score a (some b)) d_p dn
  | none => d_p.map (fun a => ranking_score a none)

/-- The `__init__` validation: `ranking` must be `'supervised'` or
`'unsupervised'`, otherwise `raise ValueError`. -/
def init (ranking : String) : Except String String :=
  if ranking = "supervised" ∨ ranking = "unsupervised" then .ok ranking
  else .error "ValueError"

/-- Post-`fit` state of a `NearestNeighborRanker`: the stored ranking mode,
the two global-id partitions `_index_p` / `_index_n`, and whether `_mod_n`
was fitted (`_mod_n._fit_method is not None`).  `_mod_p` is always fitted
when `fit` returns successfully. -/
structure State where
  ranking_ : String
  index_p : List ℤ
  index_n : List ℤ
  modN_fitted : Bool
  deriving DecidableEq, Repr

/-- `np.arange(n)` as a list of integers. -/
def arangeInt (n : ℕ) : List ℤ := (List.range n).map Int.ofNat

/-- Embedding of `NearestNeighborRanker.fit`: `check_array(X,
accept_sparse='csr')` first rejects a 0-row training matrix with
sklearn's 0-sample `ValueError`; then `index = arange(n)` where `n` is
the number of rows of `X`; split via `_unzip_relevant`; fit `_mod_p` on
the positive rows or raise if there are none; fit `_mod_n` only when
there are negative rows.  The data actually stored in the two indices
lives in the external index objects, which are modelled at query time by
the per-row query functions, so the state records the partitions and
flags. -/
def fit (ranking : String) (n : ℕ) (y : List ℚ) : Except String State :=
  if n = 0 then .error "check_array: at least one sample is required"
  else
    let index : List ℤ := arangeInt n
    let p := unzip_relevant index y
    if 0 < p.1.length then
      if 0 < p.2.length then .ok ⟨ranking, p.1, p.2, true⟩
      else .ok ⟨ranking, p.1, p.2, false⟩
    else .error "Training sets with no positive labels are not supported!"

/-- The `md` dictionary returned by `kneighbors`. -/
structure Md where
  dist_p : List ℚ
  ind_p : List ℤ
  dist_n : Option (List ℚ)
  ind_n : Option (List ℤ)
  deriving DecidableEq, Repr

/-- Embedding of `NearestNeighborRanker.kneighbors`.  `fp` / `fn` are the
per-row queries of the fitted `_mod_p` / `_mod_n` (raw Euclidean distance
and local index); `check_array` rejects an empty query matrix
(`ensure_min_samples=1`).  Mirrors the source line by line: halve the raw
distances, remap local to global ids through `_index_p` / `_index_n`,
select the winning index with `np.where(D_p <= D_n, ind_p, ind_n)` in
supervised mode, and dispatch the score on `self.ranking_`, passing
`D_n = None` when `_mod_n` was never fitted. -/
def kneighbors (r : State) (fp fn : List ℚ → ℚ × ℕ)
    (X : List (List ℚ)) (batch_size : ℕ) :
    Except String (List ℚ × List ℤ × Md) :=
  if X.isEmpty then .error "check_array: at least one sample is required"
  else
    let qp := chunk_kneighbors (batchOf fp) X batch_size
    let D_p := qp.1.map (fun d => d / 2)
    let ind_p := qp.2.map (fun i => r.index_p.getD i 0)
    if r.modN_fitted then
      let qn := chunk_kneighbors (batchOf fn) X batch_size
      let D_n := qn.1.map (fun d => d / 2)
      let ind_n := qn.2.map (fun i => r.index_n.getD i 0)
      let ind :=
        if r.ranking_ = "supervised" then
          List.zipWith (fun dd ii => if dd.1 ≤ dd.2 then ii.1 else ii.2)
            (D_p.zip D_n) (ind_p.zip ind_n)
        else ind_p
      if r.ranking_ = "supervised" then
        .ok (ranking_score_vec D_p (some D_n), ind,
             ⟨D_p, ind_p, some D_n, some ind_n⟩)
      else if r.ranking_ = "unsupervised" then
        .ok (ranking_score_vec D_p none, ind,
             ⟨D_p, ind_p, some D_n, some ind_n⟩)
      else .error "ValueError"
    else
      let ind := ind_p
      if r.ranking_ = "supervised" then
        .ok (ranking_score_vec D_p none, ind, ⟨D_p, ind_p, none, none⟩)
      else if r.ranking_ = "unsupervised" then
        .ok (ranking_score_vec D_p none, ind, ⟨D_p, ind_p, none, none⟩)
      else .error "ValueError"

end NearestNeighborRanker

namespace NearestCentroidRanker

/-- Post-`fit` state of a `NearestCentroidRanker`: `centroids_` is present
only after the (library-provided) `NearestCentroid.fit` ran. -/
structure State where
  centroids_ : Option (List (List ℚ))

/-- `np.min` along a row of distances.  numpy raises on an empty axis; a
fitted centroid classifier has at least one class, so the `[]` case is
unreachable from the claims (the theorems assume a nonempty centroid
list). -/
def list_min : List ℚ → ℚ
  | [] => 0
  | d :: ds => ds.foldl min d

/-- Embedding of `NearestCentroidRanker.decision_function`:
`check_is_fitted(self, 'centroids_')` raises `NotFitted` when the model was
never fitted; `check_array` rejects an empty query; otherwise return
`pairwise_distances(X, self.centroids_, metric=self.metric).min(axis=1)`,
with the configured metric passed in as the external pairwise distance. -/
def decision_function (st : State) (metric : List ℚ → List ℚ → ℚ)
    (X : List (List ℚ)) : Except String (List ℚ) :=
  match st.centroids_ with
  | none => .error "NotFitted"
  | some cs =>
      if X.isEmpty then .error "check_array: at least one sample is required"
      else .ok (X.map (fun row => list_min (cs.map (fun c => metric row c))))

end NearestCentroidRanker

namespace CategorizerWrapper

/-- Everything `_CategorizerWrapper.train` does after its validation
prefix succeeds: build the estimator, fit it on the training rows and
persist it with `joblib.dump`.  These are external effects (sklearn,
filesystem); the record only registers that they happened. -/
structure TrainEffects where
  fitted : Bool
  persisted : Bool
  deriving DecidableEq, Repr

/-- The `valid_methods` list of `_CategorizerWrapper.train`. -/
def valid_methods : List String :=
  ["LinearSVC", "LogisticRegression", "xgboost",
   "NearestCentroid", "NearestNeighbor"]

/-- Embedding of `_CategorizerWrapper.train`'s validation sequence, in
source order: the disabled-method check, the `valid_methods` check, the
`cv is not None and method in ['NearestNeighbor', 'NearestCentroid']`
check, and the `cv not in [None, 'fast', 'full']` check.  Any `raise`
aborts before the estimator is built, fitted or persisted; on success the
model is fitted and dumped to disk. -/
def train (method : String) (cv : Option String) : Except String TrainEffects :=
  if method = "ensemble-stacking" ∨ method = "MLPClassifier" then
    .error "WrongParameter: method is implemented but not production ready"
  else if ¬ method ∈ valid_methods then
    .error "WrongParameter: method is not supported"
  else if cv ≠ none ∧ (method = "NearestNeighbor" ∨ method = "NearestCentroid") then
    .error "WrongParameter: Cross validation not supported with this method"
  else if ¬ (cv = none ∨ cv = some "fast" ∨ cv = some "full") then
    .error "WrongParameter: cv"
  else
    .ok ⟨true, true⟩

end CategorizerWrapper

/-- A constant per-row query (used to instantiate the external index at
concrete inputs): every row is at raw distance `q` from its nearest
exemplar, whose local index is `i`. -/
def constQuery (q : ℚ) (i : ℕ) : List ℚ → ℚ × ℕ := fun _ => (q, i)

/-- A per-row query whose distance is the row's first coordinate. -/
def headQuery : List ℚ → ℚ × ℕ := fun row => (row.headD 0, 0)

/-- A simple concrete metric: difference of first coordinates. -/
def headDiff : List ℚ → List ℚ → ℚ := fun r c => r.headD 0 - c.headD 0

/-! ### Helper lemmas -/

/-- Zipping two maps of the same list with a binary function is a single
map over that list. -/
theorem zipWith_map_same {α β γ δ : Type} (f : β → γ → δ) (g : α → β)
    (h : α → γ) : ∀ l : List α,
    List.zipWith f (l.map g) (l.map h) = l.map (fun x => f (g x) (h x)) := by
  intro l
  induction l with
  | nil => rfl
  | cons a l ih => simp [ih]

/-- `zip` of two maps of the same list as a single map. -/
theorem zip_map_same {α β γ : Type} (g : α → β) (h : α → γ) (l : List α) :
    (l.map g).zip (l.map h) = l.map (fun x => (g x, h x)) :=
  zipWith_map_same Prod.mk g h l

/-- The row slices taken by `chunk_kneighbors` concatenate back to the
whole matrix, for any batch size `B ≥ 1`. -/
theorem slices_flatten {α : Type} (B : ℕ) (hB : 1 ≤ B) :
    ∀ X : List α,
      ((List.range (X.length / B + if X.length % B ≠ 0 then 1 else 0)).map
        (fun k => (X.drop (k * B)).take
          (min ((k + 1) * B) X.length - k * B))).flatten = X := by
  suffices H : ∀ (n : ℕ) (X : List α), X.length = n →
      ((List.range (X.length / B + if X.length % B ≠ 0 then 1 else 0)).map
        (fun k => (X.drop (k * B)).take
          (min ((k + 1) * B) X.length - k * B))).flatten = X by
    exact fun X => H X.length X rfl
  intro n
  induction n using Nat.strong_induction_on with
  | _ n ih =>
    intro X hX
    rcases Nat.eq_zero_or_pos n with h0 | hpos
    · subst h0
      have hnil : X = [] := List.length_eq_zero.mp hX
      subst hnil
      simp
    · have hY : (X.drop B).length = n - B := by
        rw [List.length_drop, hX]
      have hnb : n / B + (if n % B ≠ 0 then 1 else 0)
          = ((n - B) / B + (if (n - B) % B ≠ 0 then 1 else 0)) + 1 := by
        rcases le_or_lt B n with hBn | hnB
        · have hdiv : n / B = (n - B) / B + 1 :=
            Nat.div_eq_sub_div (by omega) hBn
          have hmod : n % B = (n - B) % B := Nat.mod_eq_sub_mod hBn
          rw [hdiv, hmod]
          omega
        · have h1 : n / B = 0 := Nat.div_eq_of_lt hnB
          have h2 : n % B = n := Nat.mod_eq_of_lt hnB
          have h3 : n - B = 0 := by omega
          rw [h1, h2, h3]
          simp
          omega
      rw [hX, hnb, List.range_succ_eq_map]
      simp only [List.map_cons, List.flatten_cons, List.map_map,
        Nat.zero_mul, List.drop_zero, Nat.sub_zero, Nat.zero_add,
        Nat.one_mul]
      rcases le_or_lt n B with hnB | hBn
      · have hm : (n - B) / B + (if (n - B) % B ≠ 0 then 1 else 0) = 0 := by
          have h3 : n - B = 0 := by omega
          rw [h3]
          simp
        rw [hm]
        simp only [List.range_zero, List.map_nil, List.flatten_nil,
          List.append_nil]
        have : min B n = n := by omega
        rw [this, ← hX]
        exact List.take_length X
      · have hslice : ∀ k : ℕ,
            ((X.drop ((k + 1) * B)).take
              (min ((k + 1 + 1) * B) n - (k + 1) * B))
            = (((X.drop B).drop (k * B)).take
              (min ((k + 1) * B) (n - B) - k * B)) := by
          intro k
          have hd : (X.drop B).drop (k * B) = X.drop ((k + 1) * B) := by
            rw [List.drop_drop]
            congr 1
            ring
          have e1 : (k + 1 + 1) * B = k * B + B + B := by ring
          have e2 : (k + 1) * B = k * B + B := by ring
          have ht : min ((k + 1 + 1) * B) n - (k + 1) * B
              = min ((k + 1) * B) (n - B) - k * B := by
            rw [e1, e2]
            omega
          rw [hd, ht]
        have hmap : (List.range ((n - B) / B +
              (if (n - B) % B ≠ 0 then 1 else 0))).map
              (fun k => (X.drop ((k + 1) * B)).take
                (min ((k + 1 + 1) * B) n - (k + 1) * B))
            = (List.range ((X.drop B).length / B +
              (if (X.drop B).length % B ≠ 0 then 1 else 0))).map
              (fun k => ((X.drop B).drop (k * B)).take
                (min ((k + 1) * B) ((X.drop B).length) - k * B)) := by
          rw [hY]
          exact List.map_congr_left (fun k _ => hslice k)
        calc (X.take (min B n)) ++
              ((List.range ((n - B) / B +
                (if (n - B) % B ≠ 0 then 1 else 0))).map
                (fun k => (X.drop (Nat.succ k * B)).take
                  (min ((Nat.succ k + 1) * B) n - Nat.succ k * B))).flatten
            = (X.take B) ++ (X.drop B) := by
              have hmin : min B n = B := by omega
              rw [hmin]
              congr 1
              rw [show (fun k => (X.drop (Nat.succ k * B)).take
                  (min ((Nat.succ k + 1) * B) n - Nat.succ k * B))
                = (fun k => (X.drop ((k + 1) * B)).take
                  (min ((k + 1 + 1) * B) n - (k + 1) * B)) from rfl]
              rw [hmap]
              exact ih (n - B) (by omega) (X.drop B) hY
          _ = X := List.take_append_drop B X

/-- `chunk_kneighbors` applied to a row-wise batch query is the one-shot
query on the whole matrix: chunking never changes the result. -/
theorem chunk_batchOf (f : List ℚ → ℚ × ℕ) (X : List (List ℚ)) {B : ℕ}
    (hB : 1 ≤ B) : chunk_kneighbors (batchOf f) X B = batchOf f X := by
  have hsl := slices_flatten B hB X
  unfold chunk_kneighbors
  simp only [List.map_map]
  have h1 : ∀ {γ : Type} (g : List ℚ → γ),
      ((List.range (X.length / B + if X.length % B ≠ 0 then 1 else 0)).map
        (fun k => ((X.drop (k * B)).take
          (min ((k + 1) * B) X.length - k * B)).map g)).flatten
      = X.map g := by
    intro γ g
    have hc : (fun k => ((X.drop (k * B)).take
          (min ((k + 1) * B) X.length - k * B)).map g)
        = (List.map g) ∘ (fun k => (X.drop (k * B)).take
          (min ((k + 1) * B) X.length - k * B)) := rfl
    rw [hc, ← List.map_map, ← List.map_flatten, hsl]
  refine Prod.ext ?_ ?_
  · simpa [batchOf, List.map_map, Function.comp] using
      h1 (fun row => (f row).1)
  · simpa [batchOf, List.map_map, Function.comp] using
      h1 (fun row => (f row).2)

namespace NearestNeighborRanker

/-- Evaluation of `kneighbors` in supervised mode with a fitted negative
index: every output is the row-wise combination of the two per-row
queries, independent of the batch size. -/
theorem kneighbors_supervised_fitted (r : State) (fp fn : List ℚ → ℚ × ℕ)
    (X : List (List ℚ)) (B : ℕ) (hB : 1 ≤ B) (hX : X ≠ [])
    (hs : r.ranking_ = "supervised") (hm : r.modN_fitted = true) :
    kneighbors r fp fn X B = .ok
      (X.map (fun row =>
        ranking_score ((fp row).1 / 2) (some ((fn row).1 / 2))),
       X.map (fun row =>
        if (fp row).1 / 2 ≤ (fn row).1 / 2 then r.index_p.getD (fp row).2 0
        else r.index_n.getD (fn row).2 0),
       ⟨X.map (fun row => (fp row).1 / 2),
        X.map (fun row => r.index_p.getD (fp row).2 0),
        some (X.map (fun row => (fn row).1 / 2)),
        some (X.map (fun row => r.index_n.getD (fn row).2 0))⟩) := by
  have hXe : X.isEmpty = false := by
    cases X with
    | nil => exact absurd rfl hX
    | cons a l => rfl
  simp only [kneighbors, hXe, Bool.false_eq_true, if_false,
    chunk_batchOf fp X hB, chunk_batchOf fn X hB, batchOf, hm, if_true,
    hs, List.map_map, Function.comp_def, ranking_score_vec, zip_map_same,
    zipWith_map_same, reduceIte]

/-- Evaluation of `kneighbors` in unsupervised mode with a fitted negative
index: the score uses only the positive distances (`D_n = None` is passed
to `_ranking_score`) and the winning index is the positive one, while the
`md` dictionary still reports the negative query results. -/
theorem kneighbors_unsupervised_fitted (r : State) (fp fn : List ℚ → ℚ × ℕ)
    (X : List (List ℚ)) (B : ℕ) (hB : 1 ≤ B) (hX : X ≠ [])
    (hs : r.ranking_ = "unsupervised") (hm : r.modN_fitted = true) :
    kneighbors r fp fn X B = .ok
      (X.map (fun row => ranking_score ((fp row).1 / 2) none),
       X.map (fun row => r.index_p.getD (fp row).2 0),
       ⟨X.map (fun row => (fp row).1 / 2),
        X.map (fun row => r.index_p.getD (fp row).2 0),
        some (X.map (fun row => (fn row).1 / 2)),
        some (X.map (fun row => r.index_n.getD (fn row).2 0))⟩) := by
  have hXe : X.isEmpty = false := by
    cases X with
    | nil => exact absurd rfl hX
    | cons a l => rfl
  have hne : ¬ ("unsupervised" = "supervised") := by decide
  simp only [kneighbors, hXe, Bool.false_eq_true, if_false,
    chunk_batchOf fp X hB, chunk_batchOf fn X hB, batchOf, hm, if_true,
    hs, List.map_map, Function.comp_def, ranking_score_vec, hne,
    reduceIte]

/-- Evaluation of `kneighbors` when the negative index was never fitted:
whatever the (valid) ranking mode, the call succeeds, the score uses only
the positive-branch formula, and the winning index is the nearest
positive exemplar. -/
theorem kneighbors_not_fitted (r : State) (fp fn : List ℚ → ℚ × ℕ)
    (X : List (List ℚ)) (B : ℕ) (hB : 1 ≤ B) (hX : X ≠ [])
    (hs : r.ranking_ = "supervised" ∨ r.ranking_ = "unsupervised")
    (hm : r.modN_fitted = false) :
    kneighbors r fp fn X B = .ok
      (X.map (fun row => ranking_score ((fp row).1 / 2) none),
       X.map (fun row => r.index_p.getD (fp row).2 0),
       ⟨X.map (fun row => (fp row).1 / 2),
        X.map (fun row => r.index_p.getD (fp row).2 0),
        none, none⟩) := by
  have hXe : X.isEmpty = false := by
    cases X with
    | nil => exact absurd rfl hX
    | cons a l => rfl
  have hne : ¬ ("unsupervised" = "supervised") := by decide
  rcases hs with hs | hs <;>
    simp only [kneighbors, hXe, Bool.false_eq_true, if_false,
      chunk_batchOf fp X hB, batchOf, hm, hs, List.map_map,
      Function.comp_def, ranking_score_vec, hne, reduceIte]

end NearestNeighborRanker

/-- Zipping a list with a constant map of itself pairs every element with
the constant. -/
theorem zip_map_const {α β : Type} (c : β) (l : List α) :
    l.zip (l.map fun _ => c) = l.map (fun x => (x, c)) := by
  induction l with
  | nil => rfl
  | cons a l ih => simp only [List.map_cons, List.zip_cons_cons, ih]

/-- Positional description of a masked selection: filtering the zip of an
indexed list with its parallel value list and keeping the indices is the
same as filtering the index range by the value at each position. -/
theorem zip_range_filter (P : ℚ → Bool) :
    ∀ (y : List ℚ) (f : ℕ → ℤ),
      (((List.range y.length).map f).zip y |>.filter
          (fun t => P t.2)).map Prod.fst
        = ((List.range y.length).filter (fun i => P (y.getD i 0))).map f := by
  intro y
  induction y with
  | nil => intro f; rfl
  | cons v ys ih =>
    intro f
    have hL : (v :: ys).length = ys.length + 1 := rfl
    rw [hL, List.range_succ_eq_map]
    have hm1 : ((0 :: (List.range ys.length).map fun i => i + 1).map f)
        = f 0 :: (List.range ys.length).map (fun i => f (i + 1)) := by
      simp [List.map_map, Function.comp_def]
    rw [hm1, List.zip_cons_cons, List.filter_cons, List.filter_cons]
    have htail :=
      ih (fun i => f (i + 1))
    have hshift : ((((List.range ys.length).map fun i => i + 1).filter
          (fun i => P ((v :: ys).getD i 0)))).map f
        = ((List.range ys.length).filter
          (fun i => P (ys.getD i 0))).map (fun i => f (i + 1)) := by
      rw [List.filter_map (fun i => i + 1) (List.range ys.length),
        List.map_map]
      have hpred : ((fun i => P ((v :: ys).getD i 0)) ∘ fun i => i + 1)
          = (fun i => P (ys.getD i 0)) := by
        funext i
        rfl
      rw [hpred]
      rfl
    by_cases hv : P v = true
    · have h1 : P ((f 0, v)).2 = true := hv
      have h2 : P ((v :: ys).getD 0 0) = true := hv
      rw [if_pos h1, if_pos h2, List.map_cons, List.map_cons, htail,
        ← hshift]
    · have h1 : ¬ P ((f 0, v)).2 = true := hv
      have h2 : ¬ P ((v :: ys).getD 0 0) = true := hv
      rw [if_neg h1, if_neg h2, htail, ← hshift]

/-- A left fold with `min` is bounded by its initial value. -/
theorem foldl_min_le_init : ∀ (ds : List ℚ) (d : ℚ), ds.foldl min d ≤ d := by
  intro ds
  induction ds with
  | nil => intro d; exact le_refl d
  | cons a l ih =>
    intro d
    calc (a :: l).foldl min d = l.foldl min (min d a) := rfl
    _ ≤ min d a := ih (min d a)
    _ ≤ d := min_le_left d a

/-- A left fold with `min` is bounded by every list element. -/
theorem foldl_min_le_mem : ∀ (ds : List ℚ) (d c : ℚ), c ∈ ds →
    ds.foldl min d ≤ c := by
  intro ds
  induction ds with
  | nil => intro d c hc; cases hc
  | cons a l ih =>
    intro d c hc
    rcases List.mem_cons.mp hc with h | h
    · subst h
      calc (c :: l).foldl min d = l.foldl min (min d c) := rfl
      _ ≤ min d c := foldl_min_le_init l (min d c)
      _ ≤ c := min_le_right d c
    · exact ih (min d a) c h

/-- A left fold with `min` is attained: it equals the initial value or
some list element. -/
theorem foldl_min_attained : ∀ (ds : List ℚ) (d : ℚ),
    ds.foldl min d = d ∨ ds.foldl min d ∈ ds := by
  intro ds
  induction ds with
  | nil => intro d; exact Or.inl rfl
  | cons a l ih =>
    intro d
    have hfold : (a :: l).foldl min d = l.foldl min (min d a) := rfl
    rcases ih (min d a) with h | h
    · rcases le_total d a with hda | had
      · left
        rw [hfold, h, min_eq_left hda]
      · right
        rw [hfold, h, min_eq_right had]
        exact List.mem_cons_self a l
    · right
      rw [hfold]
      exact List.mem_cons.mpr (Or.inr h)

namespace NearestNeighborRanker

/-- Bounds for `_ranking_score`: when both halved distances lie in
`[0, 1]` (as they do for Euclidean distances of L2-normalized vectors,
raw distance at most 2), the score lies in `[-1, 1]`. -/
theorem ranking_score_bounds (d_p : ℚ) (d_n : Option ℚ)
    (hp0 : 0 ≤ d_p) (hp1 : d_p ≤ 1)
    (hn : ∀ v, d_n = some v → 0 ≤ v ∧ v ≤ 1) :
    -1 ≤ ranking_score d_p d_n ∧ ranking_score d_p d_n ≤ 1 := by
  cases d_n with
  | none =>
    simp only [ranking_score]
    constructor <;> [linarith; linarith]
  | some v =>
    obtain ⟨hv0, hv1⟩ := hn v rfl
    simp only [ranking_score]
    split
    · constructor <;> [linarith; linarith]
    · constructor <;> [linarith; linarith]

/-- Inversion of a successful `fit`: the resulting state stores the mode
and the two partitions, the positive partition is non-empty, and the
negative index is fitted exactly when the negative partition is
non-empty. -/
theorem fit_ok_inv (ranking : String) (n : ℕ) (y : List ℚ) (st : State)
    (h : fit ranking n y = .ok st) :
    st.ranking_ = ranking ∧
    st.index_p = (unzip_relevant (arangeInt n) y).1 ∧
    st.index_n = (unzip_relevant (arangeInt n) y).2 ∧
    st.index_p ≠ [] ∧
    (st.modN_fitted = true ↔ st.index_n ≠ []) := by
  simp only [fit] at h
  split at h
  · cases h
  split at h
  · rename_i hp
    split at h
    · rename_i hn2
      cases h
      refine ⟨rfl, rfl, rfl, ?_, ?_⟩
      · exact List.length_pos.mp hp
      · simp only [true_iff]
        exact List.length_pos.mp hn2
    · rename_i hn2
      cases h
      refine ⟨rfl, rfl, rfl, ?_, ?_⟩
      · exact List.length_pos.mp hp
      · constructor
        · intro hh
          exact absurd hh (by simp)
        · intro hne
          exact absurd (List.length_pos.mpr hne) hn2
  · cases h

end NearestNeighborRanker

/-! ### Claim theorems -/

open NearestNeighborRanker

/-- `_ranking_score` with a negative distance, written as the spec writes
it: `(S_p + 1)/2` when `S_p > S_n` (strict), `(-1 - S_n)/2` otherwise. -/
theorem ranking_score_some_eq (dp dn : ℚ) :
    ranking_score dp (some dn)
      = if (1 - dp) > (1 - dn) then ((1 - dp) + 1) / 2
        else (-1 - (1 - dn)) / 2 := by
  simp only [ranking_score]
  rw [apply_ite (fun x : ℚ => x / 2)]

/-- Claim C1: in supervised mode with both indices fitted, with
`S_p = 1 - D_p` and `S_n = 1 - D_n`, each row's score is `(S_p + 1)/2`
when `S_p > S_n` (strict) and `(-1 - S_n)/2` otherwise — in particular the
negative branch is taken when `D_p = D_n` — and the winning global index
is `ind_p` when `D_p <= D_n`, else `ind_n`. -/
theorem claim_C1 (r : State) (fp fn : List ℚ → ℚ × ℕ)
    (X : List (List ℚ)) (B : ℕ) (hB : 1 ≤ B) (hX : X ≠ [])
    (hs : r.ranking_ = "supervised") (hm : r.modN_fitted = true) :
    kneighbors r fp fn X B = .ok
      (X.map (fun row =>
         if (1 - (fp row).1 / 2) > (1 - (fn row).1 / 2)
         then ((1 - (fp row).1 / 2) + 1) / 2
         else (-1 - (1 - (fn row).1 / 2)) / 2),
       X.map (fun row =>
         if (fp row).1 / 2 ≤ (fn row).1 / 2 then r.index_p.getD (fp row).2 0
         else r.index_n.getD (fn row).2 0),
       ⟨X.map (fun row => (fp row).1 / 2),
        X.map (fun row => r.index_p.getD (fp row).2 0),
        some (X.map (fun row => (fn row).1 / 2)),
        some (X.map (fun row => r.index_n.getD (fn row).2 0))⟩) ∧
    (∀ row ∈ X, (fp row).1 / 2 = (fn row).1 / 2 →
      (if (1 - (fp row).1 / 2) > (1 - (fn row).1 / 2)
       then ((1 - (fp row).1 / 2) + 1) / 2
       else (-1 - (1 - (fn row).1 / 2)) / 2)
      = (-1 - (1 - (fn row).1 / 2)) / 2) := by
  constructor
  · rw [kneighbors_supervised_fitted r fp fn X B hB hX hs hm]
    simp only [ranking_score_some_eq]
  · intro row _ heq
    rw [heq]
    simp

/-- Witness for C1 at a concrete tie-free input: positive distance 1
(halved 1/2), negative distance 1/2 (halved 1/4); the negative exemplar is
closer, so the score is `(-1 - S_n)/2 = -7/8` and the winning index is the
negative one. -/
theorem claim_C1_witness :
    kneighbors ⟨"supervised", [3], [7], true⟩ (constQuery 1 0)
        (constQuery (1/2) 0) [[0]] 5000
      = .ok ([-7/8], [7], ⟨[1/2], [3], some [1/4], some [7]⟩) := by
  rw [(claim_C1 ⟨"supervised", [3], [7], true⟩ (constQuery 1 0)
    (constQuery (1/2) 0) [[0]] 5000 (by decide) (by simp) rfl rfl).1]
  norm_num [constQuery]

/-- Claim C3: chunking invariance — for any batch sizes `B1, B2 ≥ 1`,
`kneighbors` returns identical results, and the chunked query equals the
per-batch query run in one call on the whole matrix (row order
preserved). -/
theorem claim_C3 (r : State) (fp fn : List ℚ → ℚ × ℕ)
    (X : List (List ℚ)) (B1 B2 : ℕ) (hB1 : 1 ≤ B1) (hB2 : 1 ≤ B2)
    (_hX : X ≠ []) :
    chunk_kneighbors (batchOf fp) X B1 = batchOf fp X ∧
    kneighbors r fp fn X B1 = kneighbors r fp fn X B2 := by
  refine ⟨chunk_batchOf fp X hB1, ?_⟩
  simp only [kneighbors, chunk_batchOf fp X hB1, chunk_batchOf fn X hB1,
    chunk_batchOf fp X hB2, chunk_batchOf fn X hB2]

/-- Witness for C3: a three-row query with batch sizes 2 and 3. -/
theorem claim_C3_witness :
    chunk_kneighbors (batchOf headQuery) [[10], [20], [30]] 2
      = batchOf headQuery [[10], [20], [30]] ∧
    kneighbors ⟨"supervised", [0], [1], true⟩ headQuery
        (constQuery 1 0) [[10], [20], [30]] 2
      = kneighbors ⟨"supervised", [0], [1], true⟩ headQuery
        (constQuery 1 0) [[10], [20], [30]] 3 :=
  claim_C3 ⟨"supervised", [0], [1], true⟩ headQuery (constQuery 1 0)
    [[10], [20], [30]] 2 3 (by decide) (by decide) (by simp)

/-- Claim C4: fitting a nonempty training set whose label vector has no
positive label fails with the `InvalidTrainingSet` error
(`ValueError('Training sets with no positive labels are not
supported!')`) and produces no fitted state at all, so neither index is
fitted.  (An empty training matrix is rejected earlier by `check_array`
with sklearn's own 0-sample error, before labels are looked at.) -/
theorem claim_C4 (ranking : String) (n : ℕ) (y : List ℚ) (hn : 0 < n)
    (hy : ∀ v ∈ y, v = (0 : ℚ)) :
    fit ranking n y
      = .error "Training sets with no positive labels are not supported!" := by
  simp only [fit]
  rw [if_neg (by omega : ¬ n = 0)]
  have hp : (unzip_relevant (arangeInt n) y).1
      = [] := by
    simp only [unzip_relevant]
    rw [List.map_eq_nil_iff, List.filter_eq_nil_iff]
    intro t ht
    have hv : t.2 ∈ y := (List.of_mem_zip ht).2
    rw [hy t.2 hv]
    simp only [decide_eq_true_eq]
    norm_num
  rw [hp]
  simp

/-- Witness for C4: the all-negative label vector `[0, 0]`. -/
theorem claim_C4_witness :
    fit "supervised" 2 [0, 0]
      = .error "Training sets with no positive labels are not supported!" :=
  claim_C4 "supervised" 2 [0, 0] (by decide) (by decide)

/-- Claim C10: unzipping the zip of two disjoint id lists returns the two
lists unchanged and in order. -/
theorem claim_C10 (rel nonrel : List ℤ) (_hdisj : ∀ x ∈ rel, x ∉ nonrel) :
    unzip_relevant (zip_relevant rel nonrel).1 (zip_relevant rel nonrel).2
      = (rel, nonrel) := by
  simp only [zip_relevant, unzip_relevant]
  rw [List.zip_append (by simp)]
  rw [zip_map_const (1 : ℚ) rel, zip_map_const (0 : ℚ) nonrel]
  rw [List.filter_append, List.filter_append,
    List.filter_map (fun x : ℤ => (x, (1 : ℚ))) rel,
    List.filter_map (fun x : ℤ => (x, (0 : ℚ))) nonrel,
    List.filter_map (fun x : ℤ => (x, (1 : ℚ))) rel,
    List.filter_map (fun x : ℤ => (x, (0 : ℚ))) nonrel]
  have hlt : ((1 : ℚ)/2 < 1) = True := by
    norm_num
  have hnlt : ((1 : ℚ)/2 < 0) = False := by
    norm_num
  have h1 : ((fun t : ℤ × ℚ => decide ((1 : ℚ)/2 < t.2)) ∘
      (fun x : ℤ => (x, (1 : ℚ)))) = fun _ : ℤ => true := by
    funext x
    simp only [Function.comp_apply, hlt, decide_True]
  have h0 : ((fun t : ℤ × ℚ => decide ((1 : ℚ)/2 < t.2)) ∘
      (fun x : ℤ => (x, (0 : ℚ)))) = fun _ : ℤ => false := by
    funext x
    simp only [Function.comp_apply, hnlt, decide_False]
  have h1n : ((fun t : ℤ × ℚ => !decide ((1 : ℚ)/2 < t.2)) ∘
      (fun x : ℤ => (x, (1 : ℚ)))) = fun _ : ℤ => false := by
    funext x
    simp only [Function.comp_apply, hlt, decide_True, Bool.not_true]
  have h0n : ((fun t : ℤ × ℚ => !decide ((1 : ℚ)/2 < t.2)) ∘
      (fun x : ℤ => (x, (0 : ℚ)))) = fun _ : ℤ => true := by
    funext x
    simp only [Function.comp_apply, hnlt, decide_False, Bool.not_false]
  rw [h1, h0, h1n, h0n]
  simp [List.filter_true, List.filter_false, List.map_map, Function.comp_def]

/-- Counterexample to C2 as stated: with query vectors that are not
L2-normalized the raw Euclidean distances can exceed 2, and the returned
score escapes `[-1, 1]`.  Here the nearest positive exemplar is at raw
distance 10 and the nearest negative at raw distance 12, so
`D_p = 5`, `D_n = 6`, `S_p = -4 > S_n = -5`, and the score is
`(S_p + 1)/2 = -3/2 < -1`. -/
theorem claim_C2_counterexample :
    kneighbors ⟨"supervised", [0], [1], true⟩ (constQuery 10 0)
        (constQuery 12 0) [[0]] 5000
      = .ok ([-3/2], [0], ⟨[5], [0], some [6], some [1]⟩) ∧
    ¬ (-1 ≤ (-3/2 : ℚ)) := by
  constructor
  · rw [kneighbors_supervised_fitted ⟨"supervised", [0], [1], true⟩
      (constQuery 10 0) (constQuery 12 0) [[0]] 5000 (by decide) (by simp)
      rfl rfl]
    norm_num [constQuery, ranking_score]
  · norm_num

/-- Claim C2 (amended): whenever every raw distance produced by the two
index queries lies in `[0, 2]` — which is exactly the range of Euclidean
distances between L2-normalized vectors, the documented precondition of
`_ranking_score` — every score returned by `kneighbors` lies in
`[-1, 1]`. -/
theorem claim_C2_amended (r : State) (fp fn : List ℚ → ℚ × ℕ)
    (X : List (List ℚ)) (B : ℕ) (hB : 1 ≤ B)
    (hmode : r.ranking_ = "supervised" ∨ r.ranking_ = "unsupervised")
    (hfp : ∀ row, 0 ≤ (fp row).1 ∧ (fp row).1 ≤ 2)
    (hfn : ∀ row, 0 ≤ (fn row).1 ∧ (fn row).1 ≤ 2)
    (score : List ℚ) (ind : List ℤ) (md : Md)
    (h : kneighbors r fp fn X B = .ok (score, ind, md)) :
    ∀ s ∈ score, -1 ≤ s ∧ s ≤ 1 := by
  by_cases hX : X = []
  · subst hX
    simp only [kneighbors, List.isEmpty_nil, if_true] at h
    exact Except.noConfusion h
  · cases hmf : r.modN_fitted with
    | false =>
      rw [kneighbors_not_fitted r fp fn X B hB hX hmode hmf] at h
      simp only [Except.ok.injEq, Prod.mk.injEq] at h
      obtain ⟨hsc, -, -⟩ := h
      subst hsc
      intro s hs
      obtain ⟨row, -, rfl⟩ := List.mem_map.mp hs
      refine ranking_score_bounds ((fp row).1 / 2) none ?_ ?_ ?_
      · have := (hfp row).1
        linarith
      · have := (hfp row).2
        linarith
      · intro v hv
        cases hv
    | true =>
      rcases hmode with hsup | hunsup
      · rw [kneighbors_supervised_fitted r fp fn X B hB hX hsup hmf] at h
        simp only [Except.ok.injEq, Prod.mk.injEq] at h
        obtain ⟨hsc, -, -⟩ := h
        subst hsc
        intro s hs
        obtain ⟨row, -, rfl⟩ := List.mem_map.mp hs
        refine ranking_score_bounds ((fp row).1 / 2)
          (some ((fn row).1 / 2)) ?_ ?_ ?_
        · have := (hfp row).1
          linarith
        · have := (hfp row).2
          linarith
        · intro v hv
          have hv2 : (fn row).1 / 2 = v := by
            injection hv
          subst hv2
          constructor
          · have := (hfn row).1
            linarith
          · have := (hfn row).2
            linarith
      · rw [kneighbors_unsupervised_fitted r fp fn X B hB hX hunsup hmf] at h
        simp only [Except.ok.injEq, Prod.mk.injEq] at h
        obtain ⟨hsc, -, -⟩ := h
        subst hsc
        intro s hs
        obtain ⟨row, -, rfl⟩ := List.mem_map.mp hs
        refine ranking_score_bounds ((fp row).1 / 2) none ?_ ?_ ?_
        · have := (hfp row).1
          linarith
        · have := (hfp row).2
          linarith
        · intro v hv
          cases hv

/-- Witness for the amended C2 at raw distances 1 (positive) and 2
(negative): the score is `3/4` and indeed lies in `[-1, 1]`. -/
theorem claim_C2_amended_witness :
    -1 ≤ (3/4 : ℚ) ∧ (3/4 : ℚ) ≤ 1 := by
  have h := claim_C2_amended ⟨"supervised", [0], [1], true⟩
    (constQuery 1 0) (constQuery 2 0) [[0]] 5000 (by decide) (Or.inl rfl)
    (fun row => by norm_num [constQuery])
    (fun row => by norm_num [constQuery])
    [3/4] [0] ⟨[1/2], [0], some [1], some [1]⟩
    (by
      rw [kneighbors_supervised_fitted ⟨"supervised", [0], [1], true⟩
        (constQuery 1 0) (constQuery 2 0) [[0]] 5000 (by decide) (by simp)
        rfl rfl]
      norm_num [constQuery, ranking_score])
  exact h (3/4) (by simp)

/-- Claim C5: a ranker fitted with at least one positive sample and no
negative sample answers every (nonempty) query successfully, scores every
row with the positive-branch formula `(1 - D_p + 1)/2` only, and always
reports the nearest positive exemplar's global id as the winning index. -/
theorem claim_C5 (ranking : String) (n : ℕ) (y : List ℚ) (st : State)
    (fp fn : List ℚ → ℚ × ℕ) (X : List (List ℚ)) (B : ℕ)
    (hr : ranking = "supervised" ∨ ranking = "unsupervised")
    (hfit : fit ranking n y = .ok st) (hneg : st.index_n = [])
    (hB : 1 ≤ B) (hX : X ≠ []) :
    kneighbors st fp fn X B = .ok
      (X.map (fun row => (1 - (fp row).1 / 2 + 1) / 2),
       X.map (fun row => st.index_p.getD (fp row).2 0),
       ⟨X.map (fun row => (fp row).1 / 2),
        X.map (fun row => st.index_p.getD (fp row).2 0), none, none⟩) := by
  obtain ⟨hrk, -, -, -, hflag⟩ := fit_ok_inv ranking n y st hfit
  have hm : st.modN_fitted = false := by
    cases hb : st.modN_fitted
    · rfl
    · exact absurd hneg (hflag.mp hb)
  have hs : st.ranking_ = "supervised" ∨ st.ranking_ = "unsupervised" := by
    rw [hrk]
    exact hr
  rw [kneighbors_not_fitted st fp fn X B hB hX hs hm]
  simp only [ranking_score]

/-- Witness for C5: fit on the single positive label `[1]` (empty
negative set), query one row at raw positive distance 0: the call
succeeds with score `(1 - 0 + 1)/2 = 1` and winning index 0. -/
theorem claim_C5_witness :
    kneighbors ⟨"unsupervised", [0], [], false⟩ (constQuery 0 0)
        (constQuery 0 0) [[0]] 1
      = .ok ([1], [0], ⟨[0], [0], none, none⟩) := by
  rw [claim_C5 "unsupervised" 1 [1] ⟨"unsupervised", [0], [], false⟩
    (constQuery 0 0) (constQuery 0 0) [[0]] 1 (Or.inr rfl)
    (by norm_num [fit, arangeInt, unzip_relevant, List.filter_cons,
      List.range_succ]) rfl
    (by decide) (by simp)]
  norm_num [constQuery]

/-- Counterexample to C6 as stated: a ranker configured with
`ranking='supervised'` and fitted with no negative exemplar does NOT fail
on query — `kneighbors` succeeds and silently uses the positive-only
formula (here scoring `(1 - 0 + 1)/2 = 1`). -/
theorem claim_C6_counterexample :
    fit "supervised" 1 [1] = .ok ⟨"supervised", [0], [], false⟩ ∧
    kneighbors ⟨"supervised", [0], [], false⟩ (constQuery 0 0)
        (constQuery 0 0) [[0]] 5000
      = .ok ([1], [0], ⟨[0], [0], none, none⟩) := by
  constructor
  · norm_num [fit, arangeInt, unzip_relevant, List.filter_cons,
      List.range_succ]
  · rw [kneighbors_not_fitted ⟨"supervised", [0], [], false⟩
      (constQuery 0 0) (constQuery 0 0) [[0]] 5000 (by decide) (by simp)
      (Or.inl rfl) rfl]
    norm_num [constQuery, ranking_score]

/-- Claim C6 (amended): when the ranker is configured as supervised but
`fit` received no negative exemplar, a subsequent query does not fail: it
silently falls back to the positive-only scoring formula
`(1 - D_p + 1)/2` with the positive winning index. -/
theorem claim_C6_amended (n : ℕ) (y : List ℚ) (st : State)
    (fp fn : List ℚ → ℚ × ℕ) (X : List (List ℚ)) (B : ℕ)
    (hfit : fit "supervised" n y = .ok st) (hneg : st.index_n = [])
    (hB : 1 ≤ B) (hX : X ≠ []) :
    kneighbors st fp fn X B = .ok
      (X.map (fun row => (1 - (fp row).1 / 2 + 1) / 2),
       X.map (fun row => st.index_p.getD (fp row).2 0),
       ⟨X.map (fun row => (fp row).1 / 2),
        X.map (fun row => st.index_p.getD (fp row).2 0), none, none⟩) := by
  obtain ⟨hrk, -, -, -, hflag⟩ := fit_ok_inv "supervised" n y st hfit
  have hm : st.modN_fitted = false := by
    cases hb : st.modN_fitted
    · rfl
    · exact absurd hneg (hflag.mp hb)
  rw [kneighbors_not_fitted st fp fn X B hB hX (Or.inl hrk) hm]
  simp only [ranking_score]

/-- Witness for the amended C6: fit in supervised mode on two positive
labels, query one row at raw positive distance 1 — the call succeeds with
the positive-only score `(1 - 1/2 + 1)/2 = 3/4`. -/
theorem claim_C6_amended_witness :
    kneighbors ⟨"supervised", [0, 1], [], false⟩ (constQuery 1 1)
        (constQuery 1 1) [[0]] 7
      = .ok ([3/4], [1], ⟨[1/2], [1], none, none⟩) := by
  rw [claim_C6_amended 2 [1, 1] ⟨"supervised", [0, 1], [], false⟩
    (constQuery 1 1) (constQuery 1 1) [[0]] 7
    (by norm_num [fit, arangeInt, unzip_relevant, List.filter_cons,
      List.range_succ]) rfl
    (by decide) (by simp)]
  norm_num [constQuery, List.getD_cons_succ, List.getD_cons_zero]
  rfl

/-- Witness for C10 at the disjoint id lists `[4, 2]` and `[7, 5]`. -/
theorem claim_C10_witness :
    unzip_relevant (zip_relevant [4, 2] [7, 5]).1
        (zip_relevant [4, 2] [7, 5]).2
      = ([4, 2], [7, 5]) :=
  claim_C10 [4, 2] [7, 5] (by decide)


/-- Claim C7: `fit`'s partition of `[0, n)` is order-preserving and
exhaustive — `positive_ids` are exactly the indices with label 1 and
`negative_ids` exactly those with label 0 (both in increasing order), the
two are disjoint, and every index lands in exactly one of them. -/
theorem claim_C7 (n : ℕ) (y : List ℚ) (hlen : y.length = n)
    (hbin : ∀ v ∈ y, v = 0 ∨ v = 1) :
    (unzip_relevant (arangeInt n) y).1
      = ((List.range n).filter
          (fun i => decide (y.getD i 0 = 1))).map Int.ofNat ∧
    (unzip_relevant (arangeInt n) y).2
      = ((List.range n).filter
          (fun i => decide (y.getD i 0 = 0))).map Int.ofNat ∧
    (∀ x, x ∈ (unzip_relevant (arangeInt n) y).1 →
      x ∉ (unzip_relevant (arangeInt n) y).2) ∧
    (∀ i, i < n →
      ((Int.ofNat i ∈ (unzip_relevant (arangeInt n) y).1 ∧
        Int.ofNat i ∉ (unzip_relevant (arangeInt n) y).2) ∨
       (Int.ofNat i ∈ (unzip_relevant (arangeInt n) y).2 ∧
        Int.ofNat i ∉ (unzip_relevant (arangeInt n) y).1))) ∧
    (unzip_relevant (arangeInt n) y).1.Pairwise (· < ·) ∧
    (unzip_relevant (arangeInt n) y).2.Pairwise (· < ·) := by
  subst hlen
  have hgd : ∀ i, i < y.length → y.getD i 0 ∈ y := by
    intro i hi
    rw [List.getD_eq_getElem y 0 hi]
    exact List.getElem_mem hi
  have hb : ∀ v : ℚ, v = 0 ∨ v = 1 →
      decide ((1 : ℚ)/2 < v) = decide (v = 1) ∧
      (!decide ((1 : ℚ)/2 < v)) = decide (v = 0) := by
    intro v hv
    rcases hv with rfl | rfl
    · have e1 : decide ((1 : ℚ)/2 < 0) = false := by
        rw [decide_eq_false_iff_not]
        norm_num
      have e2 : decide ((0 : ℚ) = 1) = false := by
        rw [decide_eq_false_iff_not]
        norm_num
      have e3 : decide ((0 : ℚ) = 0) = true := by
        rw [decide_eq_true_eq]
      constructor
      · rw [e1, e2]
      · rw [e1, e3]
        rfl
    · have e1 : decide ((1 : ℚ)/2 < 1) = true := by
        rw [decide_eq_true_eq]
        norm_num
      have e2 : decide ((1 : ℚ) = 1) = true := by
        rw [decide_eq_true_eq]
      have e3 : decide ((1 : ℚ) = 0) = false := by
        rw [decide_eq_false_iff_not]
        norm_num
      constructor
      · rw [e1, e2]
      · rw [e1, e3]
        rfl
  have hP : (unzip_relevant (arangeInt y.length) y).1
      = ((List.range y.length).filter
          (fun i => decide (y.getD i 0 = 1))).map Int.ofNat := by
    have hz := zip_range_filter (fun v => decide ((1 : ℚ)/2 < v)) y Int.ofNat
    have hc : (List.range y.length).filter
          (fun i => decide ((1 : ℚ)/2 < y.getD i 0))
        = (List.range y.length).filter (fun i => decide (y.getD i 0 = 1)) := by
      apply List.filter_congr
      intro i hi
      exact (hb _ (hbin _ (hgd i (List.mem_range.mp hi)))).1
    calc (unzip_relevant (arangeInt y.length) y).1
        = ((List.range y.length).filter
            (fun i => decide ((1 : ℚ)/2 < y.getD i 0))).map Int.ofNat := by
          simp only [unzip_relevant, arangeInt]
          exact hz
      _ = ((List.range y.length).filter
            (fun i => decide (y.getD i 0 = 1))).map Int.ofNat := by
          rw [hc]
  have hQ : (unzip_relevant (arangeInt y.length) y).2
      = ((List.range y.length).filter
          (fun i => decide (y.getD i 0 = 0))).map Int.ofNat := by
    have hz := zip_range_filter (fun v => !decide ((1 : ℚ)/2 < v)) y Int.ofNat
    have hc : (List.range y.length).filter
          (fun i => !decide ((1 : ℚ)/2 < y.getD i 0))
        = (List.range y.length).filter (fun i => decide (y.getD i 0 = 0)) := by
      apply List.filter_congr
      intro i hi
      exact (hb _ (hbin _ (hgd i (List.mem_range.mp hi)))).2
    calc (unzip_relevant (arangeInt y.length) y).2
        = ((List.range y.length).filter
            (fun i => !decide ((1 : ℚ)/2 < y.getD i 0))).map Int.ofNat := by
          simp only [unzip_relevant, arangeInt]
          exact hz
      _ = ((List.range y.length).filter
            (fun i => decide (y.getD i 0 = 0))).map Int.ofNat := by
          rw [hc]
  have hPmem : ∀ i : ℕ, Int.ofNat i ∈ (unzip_relevant (arangeInt y.length) y).1
      ↔ (i < y.length ∧ y.getD i 0 = 1) := by
    intro i
    rw [hP]
    constructor
    · intro hx
      obtain ⟨a, ha, hfa⟩ := List.mem_map.mp hx
      have hai : a = i := Int.ofNat.inj hfa
      subst hai
      obtain ⟨har, hlab⟩ := List.mem_filter.mp ha
      exact ⟨List.mem_range.mp har, of_decide_eq_true hlab⟩
    · intro ⟨hi, hlab⟩
      refine List.mem_map.mpr ⟨i, List.mem_filter.mpr
        ⟨List.mem_range.mpr hi, decide_eq_true hlab⟩, rfl⟩
  have hQmem : ∀ i : ℕ, Int.ofNat i ∈ (unzip_relevant (arangeInt y.length) y).2
      ↔ (i < y.length ∧ y.getD i 0 = 0) := by
    intro i
    rw [hQ]
    constructor
    · intro hx
      obtain ⟨a, ha, hfa⟩ := List.mem_map.mp hx
      have hai : a = i := Int.ofNat.inj hfa
      subst hai
      obtain ⟨har, hlab⟩ := List.mem_filter.mp ha
      exact ⟨List.mem_range.mp har, of_decide_eq_true hlab⟩
    · intro ⟨hi, hlab⟩
      refine List.mem_map.mpr ⟨i, List.mem_filter.mpr
        ⟨List.mem_range.mpr hi, decide_eq_true hlab⟩, rfl⟩
  have hdisj : ∀ x, x ∈ (unzip_relevant (arangeInt y.length) y).1 →
      x ∉ (unzip_relevant (arangeInt y.length) y).2 := by
    intro x hx hxq
    rw [hP] at hx
    obtain ⟨a, ha, hfa⟩ := List.mem_map.mp hx
    subst hfa
    obtain ⟨-, hlab⟩ := List.mem_filter.mp ha
    have hlab1 : y.getD a 0 = 1 := of_decide_eq_true hlab
    have h0 := (hQmem a).mp hxq
    rw [hlab1] at h0
    exact absurd h0.2 (by norm_num)
  refine ⟨hP, hQ, hdisj, ?_, ?_, ?_⟩
  · intro i hi
    rcases hbin _ (hgd i hi) with h0 | h1
    · right
      have hq := (hQmem i).mpr ⟨hi, h0⟩
      exact ⟨hq, fun hp => hdisj _ hp hq⟩
    · left
      have hp := (hPmem i).mpr ⟨hi, h1⟩
      exact ⟨hp, fun hq => hdisj _ hp hq⟩
  · rw [hP, List.pairwise_map]
    have hsub : List.Sublist
        ((List.range y.length).filter (fun i => decide (y.getD i 0 = 1)))
        (List.range y.length) := List.filter_sublist (List.range y.length)
    exact ((List.pairwise_lt_range y.length).sublist hsub).imp
      (fun hab => Int.ofNat_lt.mpr hab)
  · rw [hQ, List.pairwise_map]
    have hsub : List.Sublist
        ((List.range y.length).filter (fun i => decide (y.getD i 0 = 0)))
        (List.range y.length) := List.filter_sublist (List.range y.length)
    exact ((List.pairwise_lt_range y.length).sublist hsub).imp
      (fun hab => Int.ofNat_lt.mpr hab)

/-- Witness for C7 at `y = [1, 0, 1]`: positives `[0, 2]`, negatives
`[1]`. -/
theorem claim_C7_witness :
    (unzip_relevant (arangeInt 3) [1, 0, 1]).1 = [0, 2] ∧
    (unzip_relevant (arangeInt 3) [1, 0, 1]).2 = [1] := by
  have hbin : ∀ v ∈ ([1, 0, 1] : List ℚ), v = 0 ∨ v = 1 := by
    intro v hv
    rcases List.mem_cons.mp hv with rfl | hv
    · right
      rfl
    rcases List.mem_cons.mp hv with rfl | hv
    · left
      rfl
    rcases List.mem_cons.mp hv with rfl | hv
    · right
      rfl
    · cases hv
  have h := claim_C7 3 [1, 0, 1] rfl hbin
  constructor
  · rw [h.1]
    norm_num [List.range_succ, List.filter_cons, List.filter_append,
      List.getD_cons_succ, List.getD_cons_zero]
  · rw [h.2.1]
    norm_num [List.range_succ, List.filter_cons, List.filter_append,
      List.getD_cons_succ, List.getD_cons_zero]

/-- Claim C8: `decision_function` fails with `NotFitted` when centroids
were never computed; otherwise it returns one entry per query row, each
entry the minimum over all class centroids of the configured metric's
distance from that row (a lower bound of every centroid distance,
attained at some centroid). -/
theorem claim_C8 (st : NearestCentroidRanker.State)
    (metric : List ℚ → List ℚ → ℚ) (X : List (List ℚ)) :
    (st.centroids_ = none →
      NearestCentroidRanker.decision_function st metric X
        = .error "NotFitted") ∧
    (∀ cs, st.centroids_ = some cs → X ≠ [] →
      NearestCentroidRanker.decision_function st metric X
        = .ok (X.map (fun row =>
            NearestCentroidRanker.list_min
              (cs.map (fun c => metric row c))))) ∧
    (∀ cs, st.centroids_ = some cs → cs ≠ [] → ∀ res,
      NearestCentroidRanker.decision_function st metric X = .ok res →
      res.length = X.length ∧
      ∀ i, i < X.length →
        (∀ c ∈ cs, res.getD i 0 ≤ metric (X.getD i []) c) ∧
        (∃ c ∈ cs, res.getD i 0 = metric (X.getD i []) c)) := by
  refine ⟨?_, ?_, ?_⟩
  · intro h
    simp only [NearestCentroidRanker.decision_function, h]
  · intro cs hcs hX
    have hXe : X.isEmpty = false := by
      cases X with
      | nil => exact absurd rfl hX
      | cons a l => rfl
    simp only [NearestCentroidRanker.decision_function, hcs, hXe,
      Bool.false_eq_true, if_false]
  · intro cs hcs hcne res hres
    simp only [NearestCentroidRanker.decision_function, hcs] at hres
    split at hres
    · exact Except.noConfusion hres
    · have hr : res = X.map (fun row =>
          NearestCentroidRanker.list_min (cs.map (fun c => metric row c))) := by
        injection hres with h
        exact h.symm
      subst hr
      refine ⟨by simp, ?_⟩
      intro i hi
      have hil : i < (X.map (fun row =>
          NearestCentroidRanker.list_min
            (cs.map (fun c => metric row c)))).length := by
        simpa using hi
      have hgd : (X.map (fun row =>
          NearestCentroidRanker.list_min
            (cs.map (fun c => metric row c)))).getD i 0
          = NearestCentroidRanker.list_min
              (cs.map (fun c => metric (X.getD i []) c)) := by
        rw [List.getD_eq_getElem _ _ hil, List.getElem_map,
          List.getD_eq_getElem _ _ hi]
      rw [hgd]
      obtain ⟨c0, rest, rfl⟩ := List.exists_cons_of_ne_nil hcne
      simp only [NearestCentroidRanker.list_min, List.map_cons]
      constructor
      · intro c hc
        rcases List.mem_cons.mp hc with rfl | hc
        · exact foldl_min_le_init _ _
        · exact foldl_min_le_mem _ _ _
            (List.mem_map_of_mem (fun c => metric (X.getD i []) c) hc)
      · rcases foldl_min_attained
            (rest.map (fun c => metric (X.getD i []) c))
            (metric (X.getD i []) c0) with h | h
        · exact ⟨c0, List.mem_cons_self _ _, h⟩
        · obtain ⟨c, hc, hce⟩ := List.mem_map.mp h
          exact ⟨c, List.mem_cons.mpr (Or.inr hc), hce.symm⟩

/-- Witness for C8: an unfitted model fails with `NotFitted`; a model with
centroids `[[1], [3]]` under the head-difference metric maps query `[0]`
to `min(-1, -3) = -3`, which is a lower bound of both centroid
distances. -/
theorem claim_C8_witness :
    NearestCentroidRanker.decision_function ⟨none⟩ headDiff [[0]]
      = .error "NotFitted" ∧
    (-3 : ℚ) ≤ headDiff [0] [1] ∧ (-3 : ℚ) ≤ headDiff [0] [3] := by
  have heval : NearestCentroidRanker.decision_function ⟨some [[1], [3]]⟩
      headDiff [[0]] = .ok [-3] := by
    norm_num [NearestCentroidRanker.decision_function,
      NearestCentroidRanker.list_min, headDiff, min_def]
  have h := (claim_C8 ⟨some [[1], [3]]⟩ headDiff [[0]]).2.2 [[1], [3]] rfl
    (by simp) [-3] heval
  have h0 := (h.2 0 (by norm_num)).1
  refine ⟨(claim_C8 ⟨none⟩ headDiff [[0]]).1 rfl, ?_, ?_⟩
  · have := h0 [1] (by simp)
    simpa using this
  · have := h0 [3] (by simp)
    simpa using this

/-- Claim C9: requesting cross-validation together with the
nearest-neighbor or centroid method makes `train` fail with
`WrongParameter` during its validation prefix, before any model is built,
fitted or persisted. -/
theorem claim_C9 (method : String) (cv : Option String)
    (hm : method = "NearestNeighbor" ∨ method = "NearestCentroid")
    (hcv : cv ≠ none) :
    CategorizerWrapper.train method cv
      = .error
        "WrongParameter: Cross validation not supported with this method" := by
  rcases hm with rfl | rfl <;>
    simp [CategorizerWrapper.train, CategorizerWrapper.valid_methods, hcv]

/-- Witness for C9: `train("NearestNeighbor", cv="fast")`. -/
theorem claim_C9_witness :
    CategorizerWrapper.train "NearestNeighbor" (some "fast")
      = .error
        "WrongParameter: Cross validation not supported with this method" :=
  claim_C9 "NearestNeighbor" (some "fast") (Or.inl rfl) (by simp)

end FreeDiscovery
